import Mathlib

/-!
# Shallow embedding of `goinput` (src/input.go)

The Go source is a small composable input-validation library.  Values are
opaque (`interface{}` in Go), so the embedding is polymorphic over a value
type `α`.  Go `error` values appear only as opaque failure descriptions; they
are modelled as `String` (the description carried by the error), and a Go
`error` return of `nil` is `Option.none`.

Go maps (`map[string]...`) are unordered with unique keys; they are modelled
as association lists `List (String × _)`.  The list order stands for one
iteration order; where a claim depends on uniqueness of keys the theorem
carries a `Nodup` hypothesis on the key list.
-/

set_option autoImplicit false

namespace Goinput

/-- `type Filter func(value interface{}) interface{}` (src/input.go line 9). -/
def Filter (α : Type) : Type := α → α

/-- `type Validator interface { Validate(value interface{}) error }`
(src/input.go lines 15-17).  The interface has a single method, so a
validator is modelled by that method; `none` is Go's `nil` error (the check
passes), `some d` is a failure with description `d`. -/
def Validator (α : Type) : Type := α → Option String

/-- `type ValidationError struct { Errors []error; Children map[string]*ValidationError }`
(src/input.go lines 50-53). -/
inductive ValidationError : Type where
  | mk (Errors : List String) (Children : List (String × ValidationError))

/-- Projection for the `Errors` field of `ValidationError`. -/
def ValidationError.Errors : ValidationError → List String
  | .mk e _ => e

/-- Projection for the `Children` field of `ValidationError`. -/
def ValidationError.Children : ValidationError → List (String × ValidationError)
  | .mk _ c => c

/-- `NewValidationError(errs, children)` (src/input.go lines 59-71): nil
arguments (here `none`) are normalized to empty containers. -/
def NewValidationError (errs : Option (List String))
    (children : Option (List (String × ValidationError))) : ValidationError :=
  ValidationError.mk (errs.getD []) (children.getD [])

mutual

/-- `func (errs ValidationError) Empty() bool` (src/input.go lines 87-103):
`empty` starts `true`; if `len(Errors) != 0` it becomes `false`; otherwise, if
`len(Children) != 0`, the loop over children sets it to `false` (with `break`)
at the first non-empty child. -/
def ValidationError.Empty : ValidationError → Bool
  | .mk errs children =>
    if errs.length ≠ 0 then false
    else if children.length ≠ 0 then ValidationError.childLoopEmpty children
    else true

/-- The `for _, child := range errs.Children` loop inside `Empty`
(src/input.go lines 94-99): returns `false` at the first non-empty child,
`true` if the loop ends without finding one. -/
def ValidationError.childLoopEmpty : List (String × ValidationError) → Bool
  | [] => true
  | child :: rest =>
    if !child.2.Empty then false else ValidationError.childLoopEmpty rest

end

/-- Model of `%q` applied to the `[]error` slice: each error's message,
quoted, space-separated inside brackets. -/
def ValidationError.quotedErrors (errs : List String) : String :=
  "[" ++ String.intercalate " " (errs.map (fun e => "\x22" ++ e ++ "\x22")) ++ "]"

mutual

/-- `func (errs ValidationError) Error() string` (src/input.go lines 76-82):
the zero value `""` unless the tree is non-empty, in which case
`fmt.Sprintf("%q, %q", errs.Errors, errs.Children)`.  The `%q` renderings are
modelled by `quotedErrors` / `quotedChildren` below; their exact bytes are not
load-bearing (the source comment only promises "a string having formatted all
of its errors and children"), but the literal `", "` between the two verbs is
kept exactly. -/
def ValidationError.Error : ValidationError → String
  | .mk errs children =>
    if !(ValidationError.mk errs children).Empty then
      ValidationError.quotedErrors errs ++ ", " ++
        ("map[" ++ String.intercalate " " (ValidationError.quotedChildEntries children) ++ "]")
    else ""

/-- Model of `%q` applied to the `map[string]*ValidationError`, one rendered
entry per map element.  Go's fmt renders a map as `map[k1:v1 ...]`; a
`*ValidationError` implements `error`, so `%q` quotes its `Error()` string.
(Go's fmt sorts map keys; here the association-list order is used — the
difference is not load-bearing.) -/
def ValidationError.quotedChildEntries : List (String × ValidationError) → List String
  | [] => []
  | child :: rest =>
    ("\x22" ++ child.1 ++ "\x22:\x22" ++ child.2.Error ++ "\x22") ::
      ValidationError.quotedChildEntries rest

end

/-- `type Input interface { FilterAndValidate() (Input, *ValidationError) }`
(src/input.go lines 108-117) is the Validatable contract; in the embedding
each implementation keeps its own typed `FilterAndValidate` below. -/
structure BasicInput (α : Type) where
  Value : α
  BreaksValidationChain : Bool
  Validators : List (Validator α)
  Filters : List (Filter α)

/-- The validator loop of `BasicInput.FilterAndValidate`
(src/input.go lines 141-148): each failing validator's error is appended; if
`BreaksValidationChain` holds, the loop `break`s after the first failure. -/
def runValidators {α : Type} : List (Validator α) → α → Bool → List String
  | [], _, _ => []
  | v :: rest, value, breaks =>
    match v value with
    | none => runValidators rest value breaks
    | some valErr =>
      if breaks then [valErr] else valErr :: runValidators rest value breaks

/-- `func (input BasicInput) FilterAndValidate() (Input, *ValidationError)`
(src/input.go lines 133-150): `errors := NewValidationError(nil, nil)`; every
filter is applied in order, each consuming the previous value; then the
validator loop appends to `errors.Errors` (its `Children` is never touched);
the (value-receiver copy of the) input with the new value is returned. -/
def BasicInput.FilterAndValidate {α : Type} (input : BasicInput α) :
    BasicInput α × ValidationError :=
  let errors := NewValidationError none none
  let value := input.Filters.foldl (fun v filter => filter v) input.Value
  ({ input with Value := value },
   ValidationError.mk (errors.Errors ++ runValidators input.Validators value input.BreaksValidationChain)
     errors.Children)

/-- `type BasicInputGroup map[string]BasicInput` (src/input.go line 155).
Note the member type: `BasicInput`, not the `Input` interface. -/
abbrev BasicInputGroup (α : Type) : Type := List (String × BasicInput α)

/-- `func (ig BasicInputGroup) FilterAndValidate()` (src/input.go lines
161-176): for every `(fieldName, input)` entry, run the member's
`FilterAndValidate`; when its errors are non-empty store them under
`errs.Children[fieldName]`; always store the filtered member in the new
group.  The group-level `errs` starts as `NewValidationError(nil, nil)` and
only its `Children` is written. -/
def BasicInputGroup.FilterAndValidate {α : Type} :
    BasicInputGroup α → BasicInputGroup α × ValidationError
  | [] => ([], NewValidationError none none)
  | (fieldName, input) :: rest =>
    let step := input.FilterAndValidate
    let restResult := BasicInputGroup.FilterAndValidate rest
    ((fieldName, step.1) :: restResult.1,
     ValidationError.mk (restResult.2).Errors
       (if !(step.2).Empty then (fieldName, step.2) :: (restResult.2).Children
        else (restResult.2).Children))

/-- `func (ig BasicInputGroup) Value(fieldName string) interface{}`
(src/input.go lines 181-188): returns the member's value when the key
exists, otherwise `panic("Key does not exist")` — the panic is modelled as
`none` (no value is ever produced). -/
def BasicInputGroup.Value {α : Type} (ig : BasicInputGroup α) (fieldName : String) :
    Option α :=
  match ig.lookup fieldName with
  | some input => some input.Value
  | none => none

/-- The fully transformed value of a field: the left-to-right composition of
its filters applied to its value (the first loop of
`BasicInput.FilterAndValidate`, src/input.go lines 137-139). -/
def BasicInput.transformedValue {α : Type} (input : BasicInput α) : α :=
  input.Filters.foldl (fun v filter => filter v) input.Value

/-- The descriptions of the failing checks of a field, in validator order:
the failures the validator loop would report were it never broken. -/
def BasicInput.failedDescriptions {α : Type} (input : BasicInput α) : List String :=
  input.Validators.filterMap (fun v => v input.transformedValue)

/-! ## Basic lemmas -/

@[simp]
theorem ValidationError.Errors_mk (e : List String) (c : List (String × ValidationError)) :
    (ValidationError.mk e c).Errors = e := rfl

@[simp]
theorem ValidationError.Children_mk (e : List String) (c : List (String × ValidationError)) :
    (ValidationError.mk e c).Children = c := rfl

theorem runValidators_no_break_eq_filterMap {α : Type} (vs : List (Validator α)) (value : α) :
    runValidators vs value false = vs.filterMap (fun v => v value) := by
  induction vs with
  | nil => rfl
  | cons v rest ih =>
    cases h : v value <;> simp [runValidators, h, ih]

theorem runValidators_break_eq_take_one {α : Type} (vs : List (Validator α)) (value : α) :
    runValidators vs value true = (vs.filterMap (fun v => v value)).take 1 := by
  induction vs with
  | nil => rfl
  | cons v rest ih =>
    cases h : v value <;> simp [runValidators, h, ih]

theorem runValidators_all_pass {α : Type} (vs : List (Validator α)) (value : α) (b : Bool)
    (h : ∀ v ∈ vs, v value = none) : runValidators vs value b = [] := by
  induction vs with
  | nil => rfl
  | cons v rest ih =>
    have hv : v value = none := h v (List.mem_cons_self v rest)
    simp only [runValidators, hv]
    exact ih (fun w hw => h w (List.mem_cons_of_mem v hw))

theorem childLoopEmpty_eq_all (cs : List (String × ValidationError)) :
    ValidationError.childLoopEmpty cs = cs.all (fun c => c.2.Empty) := by
  induction cs with
  | nil => rfl
  | cons c rest ih =>
    cases h : c.2.Empty <;> simp [ValidationError.childLoopEmpty, h, ih]

theorem ValidationError.Empty_mk (errs : List String) (cs : List (String × ValidationError)) :
    (ValidationError.mk errs cs).Empty = (errs.isEmpty && cs.all (fun c => c.2.Empty)) := by
  rw [ValidationError.Empty]
  rcases errs with _ | ⟨e, errs⟩
  · rcases cs with _ | ⟨c, cs⟩
    · simp [ValidationError.childLoopEmpty]
    · simp [childLoopEmpty_eq_all]
  · simp

/-- Structural induction over the nested `ValidationError` tree. -/
theorem ValidationError.inductionOn {motive : ValidationError → Prop}
    (step : ∀ errs children,
      (∀ c ∈ children, motive c.2) → motive (ValidationError.mk errs children)) :
    ∀ t, motive t
  | .mk errs children =>
    step errs children (fun c hc => ValidationError.inductionOn step c.2)
termination_by t => sizeOf t
decreasing_by
  have h1 := List.sizeOf_lt_of_mem hc
  obtain ⟨k, v⟩ := c
  simp at h1 ⊢
  omega

/-- The spec's recursive emptiness predicate, written from the spec's words:
the problems sequence is empty and, recursively, every child in the children
map is itself empty.  It is independent of the code's short-circuiting loop
shape; the C5 theorem compares the two. -/
def ValidationError.EmptySpecification : ValidationError → Prop
  | .mk errs children =>
    errs = [] ∧ ∀ c ∈ children, ValidationError.EmptySpecification c.2
termination_by t => sizeOf t
decreasing_by
  rename_i children hc
  have h1 := List.sizeOf_lt_of_mem hc
  obtain ⟨k, v⟩ := c
  simp at h1 ⊢
  omega

theorem group_errors_nil {α : Type} (ig : BasicInputGroup α) :
    ((ig.FilterAndValidate).2).Errors = [] := by
  induction ig with
  | nil => rfl
  | cons entry rest ih =>
    obtain ⟨n, inp⟩ := entry
    simp [BasicInputGroup.FilterAndValidate, ih]

theorem field_error_children_nil {α : Type} (input : BasicInput α) :
    ((input.FilterAndValidate).2).Children = [] := rfl

theorem group_children_keys_sub {α : Type} (ig : BasicInputGroup α) (k : String) :
    k ∈ ((ig.FilterAndValidate).2).Children.map Prod.fst → k ∈ ig.map Prod.fst := by
  induction ig with
  | nil => simp [BasicInputGroup.FilterAndValidate, NewValidationError]
  | cons entry rest ih =>
    obtain ⟨n, inp⟩ := entry
    intro h
    simp only [BasicInputGroup.FilterAndValidate, ValidationError.Children_mk] at h
    simp only [List.map_cons, List.mem_cons]
    cases hemp : ((inp.FilterAndValidate).2).Empty with
    | true =>
      rw [hemp] at h
      simp only [Bool.not_true, Bool.false_eq_true, if_false] at h
      exact Or.inr (ih h)
    | false =>
      rw [hemp] at h
      simp only [Bool.not_false, if_true, List.map_cons, List.mem_cons] at h
      rcases h with h | h
      · exact Or.inl h
      · exact Or.inr (ih h)

theorem lookup_eq_none_of_not_mem_keys {β : Type} (l : List (String × β)) (k : String)
    (h : k ∉ l.map Prod.fst) : l.lookup k = none := by
  induction l with
  | nil => rfl
  | cons p rest ih =>
    obtain ⟨n, v⟩ := p
    simp only [List.map_cons, List.mem_cons, not_or] at h
    have hk : (k == n) = false := by
      exact beq_eq_false_iff_ne.mpr h.1
    simp [List.lookup, hk, ih h.2]

/-! ## Claim theorems -/

/-- C5: for every `ValidationError` tree, including manually constructed ones
that violate the no-empty-placeholder invariant, `Empty()` is true exactly
when the problems sequence is empty and, recursively, every child in the
children map is itself empty (the spec-side predicate
`EmptySpecification`). -/
theorem empty_iff_empty_specification (t : ValidationError) :
    t.Empty = true ↔ t.EmptySpecification := by
  induction t using ValidationError.inductionOn with
  | step errs children ih =>
    have h1 : (ValidationError.mk errs children).Empty = true
        ↔ (errs = [] ∧ ∀ c ∈ children, c.2.Empty = true) := by
      simp [ValidationError.Empty_mk, List.isEmpty_iff, List.all_eq_true]
    rw [h1, ValidationError.EmptySpecification]
    exact and_congr Iff.rfl (forall₂_congr (fun c hc => ih c hc))

/-- C9: for every field, whatever its filters, validators and chain-breaking
flag, the `ValidationError` returned by `FilterAndValidate` has no children:
a field is a leaf and only its `Errors` may be non-empty. -/
theorem field_filterAndValidate_no_children {α : Type} (input : BasicInput α) :
    ((input.FilterAndValidate).2).Children = [] := rfl

/-- C10: for every `ValidationError`, the `Error()` rendering is the empty
string exactly when the tree is `Empty()`; every non-empty tree renders to a
non-empty string. -/
theorem error_string_empty_iff (t : ValidationError) :
    t.Error = "" ↔ t.Empty = true := by
  cases t with
  | mk errs children =>
    rw [ValidationError.Error]
    cases h : (ValidationError.mk errs children).Empty with
    | true => simp
    | false =>
      rw [show (!false) = true from rfl, if_pos rfl]
      constructor
      · intro habs
        have hlen := congrArg String.length habs
        have l1 : (", " : String).length = 2 := rfl
        have l2 : ("" : String).length = 0 := rfl
        simp only [String.length_append, l1, l2] at hlen
        omega
      · intro h2
        exact absurd h2 (by simp)

/-- C1 (supporting theorem for the code divergence): for every
`BasicInputGroup`, every child stored in the group's `ValidationError` is a
leaf — its own `Children` is empty.  Hence the nested tree of Scenario E
(`children = {user: {children: {email: ...}}}`) can never be produced:
`BasicInputGroup` members have type `BasicInput`, never a nested group. -/
theorem group_error_children_leaves {α : Type} (ig : BasicInputGroup α) :
    (((ig.FilterAndValidate).2).Children.all (fun child => child.2.Children.isEmpty)) = true := by
  induction ig with
  | nil => rfl
  | cons entry rest ih =>
    obtain ⟨n, inp⟩ := entry
    simp only [BasicInputGroup.FilterAndValidate, ValidationError.Children_mk]
    cases hemp : ((inp.FilterAndValidate).2).Empty with
    | true => simpa using ih
    | false =>
      simp only [Bool.not_false, if_true, List.all_cons, Bool.and_eq_true]
      exact ⟨by rw [field_error_children_nil]; rfl, ih⟩

/-- C2: for every field whose chain-breaking flag is set and whose validator
sequence has at least two failures on the transformed value, the reported
problems are exactly one — the first failing validator's description; the
validators after the first failure contribute nothing. -/
theorem break_chain_single_problem {α : Type} (input : BasicInput α)
    (hbrk : input.BreaksValidationChain = true)
    (hfail : 2 ≤ input.failedDescriptions.length) :
    ((input.FilterAndValidate).2).Errors.length = 1 ∧
      ((input.FilterAndValidate).2).Errors = input.failedDescriptions.take 1 := by
  have he : ((input.FilterAndValidate).2).Errors
      = runValidators input.Validators input.transformedValue input.BreaksValidationChain := rfl
  rw [he, hbrk, runValidators_break_eq_take_one]
  refine ⟨?_, rfl⟩
  have h2 : 2 ≤ (input.Validators.filterMap
      (fun v => v input.transformedValue)).length := hfail
  rw [List.length_take]
  exact Nat.min_eq_left (le_trans one_le_two h2)

/-- Witness for C2: a concrete field with two failing validators and the
chain-breaking flag set reports exactly the first description. -/
theorem break_chain_single_problem_witness :
    ((⟨0, true, [fun _ => some "a", fun _ => some "b"], []⟩ :
          BasicInput Nat).BreaksValidationChain = true)
      ∧ 2 ≤ ((⟨0, true, [fun _ => some "a", fun _ => some "b"], []⟩ :
          BasicInput Nat).failedDescriptions).length
      ∧ (((⟨0, true, [fun _ => some "a", fun _ => some "b"], []⟩ :
          BasicInput Nat).FilterAndValidate).2).Errors = ["a"] := by
  refine ⟨rfl, by decide, ?_⟩
  have h := break_chain_single_problem (α := Nat)
    ⟨0, true, [fun _ => some "a", fun _ => some "b"], []⟩ rfl (by decide)
  exact h.2.trans rfl

/-- C3: for every field whose chain-breaking flag is cleared, the reported
problems are exactly the `N` failing validators' descriptions, in validator
order. -/
theorem no_break_all_problems {α : Type} (input : BasicInput α) (N : Nat)
    (hbrk : input.BreaksValidationChain = false)
    (hN : input.failedDescriptions.length = N) :
    ((input.FilterAndValidate).2).Errors = input.failedDescriptions ∧
      ((input.FilterAndValidate).2).Errors.length = N := by
  have he : ((input.FilterAndValidate).2).Errors
      = runValidators input.Validators input.transformedValue input.BreaksValidationChain := rfl
  rw [he, hbrk, runValidators_no_break_eq_filterMap]
  exact ⟨rfl, hN⟩

/-- Witness for C3: a concrete field with failing, passing, failing
validators and no chain-breaking reports both failures in order. -/
theorem no_break_all_problems_witness :
    ((⟨0, false, [fun _ => some "a", fun _ => none, fun _ => some "b"], []⟩ :
          BasicInput Nat).BreaksValidationChain = false)
      ∧ ((⟨0, false, [fun _ => some "a", fun _ => none, fun _ => some "b"], []⟩ :
          BasicInput Nat).failedDescriptions).length = 2
      ∧ (((⟨0, false, [fun _ => some "a", fun _ => none, fun _ => some "b"], []⟩ :
          BasicInput Nat).FilterAndValidate).2).Errors = ["a", "b"] := by
  refine ⟨rfl, by decide, ?_⟩
  have h := no_break_all_problems (α := Nat)
    ⟨0, false, [fun _ => some "a", fun _ => none, fun _ => some "b"], []⟩ 2 rfl (by decide)
  exact h.1.trans rfl

/-- C6: for every field all of whose validators pass on the transformed
value, the returned tree is empty and the returned field's value is the
left-to-right composition of the filters applied to the original value. -/
theorem passing_checks_empty_and_transformed {α : Type} (input : BasicInput α)
    (hpass : ∀ v ∈ input.Validators, v input.transformedValue = none) :
    ((input.FilterAndValidate).2).Empty = true ∧
      ((input.FilterAndValidate).1).Value
        = input.Filters.foldl (fun value filter => filter value) input.Value := by
  constructor
  · have he : (input.FilterAndValidate).2
        = ValidationError.mk (runValidators input.Validators input.transformedValue
            input.BreaksValidationChain) [] := rfl
    rw [he, runValidators_all_pass _ _ _ hpass]
    simp [ValidationError.Empty_mk]
  · rfl

/-- Witness for C6: a concrete field with one passing validator and one
filter yields an empty tree and the transformed value. -/
theorem passing_checks_empty_and_transformed_witness :
    (∀ v ∈ (⟨3, false, [fun _ => (none : Option String)], [fun v => v + 10]⟩ :
          BasicInput Nat).Validators,
        v ((⟨3, false, [fun _ => (none : Option String)], [fun v => v + 10]⟩ :
          BasicInput Nat).transformedValue) = none)
      ∧ (((⟨3, false, [fun _ => (none : Option String)], [fun v => v + 10]⟩ :
          BasicInput Nat).FilterAndValidate).2).Empty = true
      ∧ (((⟨3, false, [fun _ => (none : Option String)], [fun v => v + 10]⟩ :
          BasicInput Nat).FilterAndValidate).1).Value = 13 := by
  refine ⟨by decide, ?_, ?_⟩
  · exact (passing_checks_empty_and_transformed (α := Nat)
      ⟨3, false, [fun _ => none], [fun v => v + 10]⟩ (by decide)).1
  · exact ((passing_checks_empty_and_transformed (α := Nat)
      ⟨3, false, [fun _ => none], [fun v => v + 10]⟩ (by decide)).2).trans rfl

/-- C7: for every group and field name, `Value` yields the stored member's
value when the name is present, and the panic (modelled `none`) occurs
exactly when the name is absent — in particular it is unreachable when the
name exists. -/
theorem value_lookup_spec {α : Type} (ig : BasicInputGroup α) (fieldName : String) :
    (∀ input : BasicInput α, ig.lookup fieldName = some input
        → ig.Value fieldName = some input.Value)
      ∧ (ig.Value fieldName = none ↔ ig.lookup fieldName = none) := by
  constructor
  · intro input h
    simp [BasicInputGroup.Value, h]
  · cases h : ig.lookup fieldName <;> simp [BasicInputGroup.Value, h]

/-- Witness for C7: in the one-member group `{a ↦ 5}`, `Value "a"` is `some
5` and `Value "b"` is the modelled panic `none`. -/
theorem value_lookup_spec_witness :
    (BasicInputGroup.Value ([("a", ⟨5, false, [], []⟩)] : BasicInputGroup Nat) "a" = some 5)
      ∧ (BasicInputGroup.Value ([("a", ⟨5, false, [], []⟩)] : BasicInputGroup Nat) "b"
          = none) := by
  have h1 := value_lookup_spec (α := Nat) [("a", ⟨5, false, [], []⟩)] "a"
  have h2 := value_lookup_spec (α := Nat) [("a", ⟨5, false, [], []⟩)] "b"
  exact ⟨h1.1 ⟨5, false, [], []⟩ rfl, h2.2.mpr rfl⟩

/-- C8: for every group, `FilterAndValidate` preserves the exact sequence of
field names, and each name is now mapped to its filtered member. -/
theorem group_preserves_field_names {α : Type} (ig : BasicInputGroup α) :
    ((ig.FilterAndValidate).1).map Prod.fst = ig.map Prod.fst
      ∧ ∀ fieldName : String,
          ((ig.FilterAndValidate).1).lookup fieldName
            = (ig.lookup fieldName).map (fun input => (input.FilterAndValidate).1) := by
  induction ig with
  | nil => exact ⟨rfl, fun _ => rfl⟩
  | cons entry rest ih =>
    obtain ⟨n, inp⟩ := entry
    constructor
    · simp only [BasicInputGroup.FilterAndValidate, List.map_cons]
      rw [ih.1]
    · intro fieldName
      simp only [BasicInputGroup.FilterAndValidate, List.lookup]
      cases hk : fieldName == n with
      | true => simp
      | false => simp [ih.2 fieldName]

theorem group_children_lookup_characterization {α : Type} (ig : BasicInputGroup α)
    (fieldName : String) :
    (ig.map Prod.fst).Nodup →
      ((((ig.FilterAndValidate).2).Children.lookup fieldName).isSome = true
        ↔ ∃ input, ig.lookup fieldName = some input
            ∧ ((input.FilterAndValidate).2).Empty = false) := by
  induction ig with
  | nil =>
    intro _
    simp [BasicInputGroup.FilterAndValidate, NewValidationError, List.lookup]
  | cons entry rest ih =>
    intro hkeys
    obtain ⟨n, inp⟩ := entry
    rw [List.map_cons, List.nodup_cons] at hkeys
    obtain ⟨hnot, hrest⟩ := hkeys
    simp only [BasicInputGroup.FilterAndValidate, ValidationError.Children_mk]
    cases hemp : ((inp.FilterAndValidate).2).Empty with
    | true =>
      simp only [Bool.not_true, Bool.false_eq_true, if_false]
      cases hk : fieldName == n with
      | true =>
        have hfn : fieldName = n := eq_of_beq hk
        subst hfn
        have hnone : (((BasicInputGroup.FilterAndValidate rest).2).Children.lookup fieldName)
            = none := by
          apply lookup_eq_none_of_not_mem_keys
          intro hmem
          exact hnot (group_children_keys_sub rest fieldName hmem)
        rw [hnone]
        simp only [Option.isSome_none, Bool.false_eq_true, false_iff, not_exists]
        intro input
        rintro ⟨hsome, hne⟩
        simp only [List.lookup, beq_self_eq_true] at hsome
        cases hsome
        rw [hemp] at hne
        cases hne
      | false =>
        simp only [List.lookup, hk]
        exact ih hrest
    | false =>
      simp only [Bool.not_false, if_true]
      cases hk : fieldName == n with
      | true =>
        have hfn : fieldName = n := eq_of_beq hk
        subst hfn
        simp only [List.lookup, beq_self_eq_true, Option.isSome_some, true_iff]
        exact ⟨inp, rfl, hemp⟩
      | false =>
        simp only [List.lookup, hk]
        exact ih hrest

/-- C4: for every group with distinct field names, the returned tree's
children map has an entry for a field name exactly when that member's own
`FilterAndValidate` produced a non-empty tree — no empty placeholders are
stored — and the group-level `Errors` sequence is always empty. -/
theorem group_children_exactly_nonempty {α : Type} (ig : BasicInputGroup α)
    (hkeys : (ig.map Prod.fst).Nodup) (fieldName : String) :
    ((((ig.FilterAndValidate).2).Children.lookup fieldName).isSome = true
        ↔ ∃ input, ig.lookup fieldName = some input
            ∧ ((input.FilterAndValidate).2).Empty = false)
      ∧ ((ig.FilterAndValidate).2).Errors = [] :=
  ⟨group_children_lookup_characterization ig fieldName hkeys, group_errors_nil ig⟩

/-- A concrete two-member group for the C4 witness: `good` has no
validators, `bad` has one always-failing validator. -/
def sampleMixedGroup : BasicInputGroup Nat :=
  [("good", ⟨1, false, [], []⟩), ("bad", ⟨2, false, [fun _ => some "no"], []⟩)]

/-- Witness for C4: in the group `{good ↦ passing field, bad ↦ failing
field}`, the children map has an entry for `bad` and none for `good`, and
the group-level `Errors` is empty. -/
theorem group_children_exactly_nonempty_witness :
    ((sampleMixedGroup.map Prod.fst).Nodup)
      ∧ ((((BasicInputGroup.FilterAndValidate
            sampleMixedGroup).2).Children.lookup "bad").isSome = true)
      ∧ (((((BasicInputGroup.FilterAndValidate
            sampleMixedGroup).2).Children.lookup "good").isSome = true) → False)
      ∧ ((BasicInputGroup.FilterAndValidate sampleMixedGroup).2).Errors = [] := by
  have hnodup : (sampleMixedGroup.map Prod.fst).Nodup := by decide
  have hbad := group_children_exactly_nonempty (α := Nat) sampleMixedGroup hnodup "bad"
  have hgood := group_children_exactly_nonempty (α := Nat) sampleMixedGroup hnodup "good"
  refine ⟨hnodup, ?_, ?_, hbad.2⟩
  · refine hbad.1.mpr ⟨⟨2, false, [fun _ => some "no"], []⟩, rfl, ?_⟩
    rw [show ((⟨2, false, [fun _ => some "no"], []⟩ :
        BasicInput Nat).FilterAndValidate).2 = ValidationError.mk ["no"] [] from rfl,
      ValidationError.Empty_mk]
    rfl
  · intro habs
    obtain ⟨input, hlook, hne⟩ := hgood.1.mp habs
    have h3 : List.lookup "good" sampleMixedGroup
        = some (⟨1, false, [], []⟩ : BasicInput Nat) := rfl
    have h2 : some (⟨1, false, [], []⟩ : BasicInput Nat) = some input := h3.symm.trans hlook
    have heq : input = ⟨1, false, [], []⟩ := (Option.some.inj h2).symm
    rw [heq,
      show ((⟨1, false, [], []⟩ : BasicInput Nat).FilterAndValidate).2
        = ValidationError.mk [] [] from rfl,
      ValidationError.Empty_mk] at hne
    exact absurd hne (by simp)

end Goinput
